import Mathlib

/-
Verification development for the MAC fixed-arena memory allocator
(src/align_up.rs, src/alloc.rs, src/free.rs, src/realloc.rs, src/lib.rs).

Shallow embedding conventions:
* Machine addresses and usize values are natural numbers; the null pointer
  is 0; usize arithmetic that can wrap in the source is taken mod 2^64.
* The arena is a heap of Block headers, modelled as a total function from
  addresses to Block records (the arena is zero-initialised, so an address
  never written holds the all-zero header).  Payload bytes are a separate
  byte memory.
* A dereference of a pointer that may be null is modelled by readB, which
  returns none at address 0: none propagates and marks the execution as
  undefined behaviour.  Field stores following a successful dereference of
  the same pointer are modelled by the total stores setB, storeSize,
  storeNext and storeFree, applied in source order so that aliased
  pointers behave exactly as the sequential stores of the source.
* Every loop of the source receives explicit fuel; exhausting the fuel
  (non-termination on a corrupted list) also yields none.
-/

namespace MAC

def U64 : Nat := 2 ^ 64

/- ARENA_SIZE, size_of::<Block>() and align_of::<Block>() from lib.rs:
   Block is repr(C, align(16)) with fields usize, raw pointer, bool,
   hence size 32 and alignment 16 on the 64-bit target. -/
def ARENA_SIZE : Nat := 1024 * 1024

def headerSize : Nat := 32

def blockAlign : Nat := 16

/- MIN_SPLIT from realloc.rs: size_of::<Block>() + 16. -/
def MIN_SPLIT : Nat := headerSize + 16

/- Wrapping usize addition. -/
def wadd (x y : Nat) : Nat := (x + y) % U64

/- Wrapping usize subtraction (left operand already reduced mod 2^64). -/
def wsub (x y : Nat) : Nat := (x + (U64 - y % U64)) % U64

/- align_up from align_up.rs: (x + align - 1) & !(align - 1), with the
   64-bit complement !(align - 1) = 2^64 - align. -/
def align_up (x a : Nat) : Nat := ((x + a + (U64 - 1)) % U64) &&& (U64 - a)

/- The value needed computed by alloc and realloc for a request of n
   payload bytes: align_up(n + size_of::<Block>(), align), with the usize
   addition wrapping. -/
def neededFor (n : Nat) : Nat := align_up ((n + headerSize) % U64) blockAlign

structure Block where
  size : Nat
  next : Nat
  free : Bool
deriving Repr, DecidableEq

/- Global allocator state: the header heap over the arena, the free-list
   head pointer FREE_LIST_HEAD (0 = null), the ALLOCATED registry, and the
   payload byte memory. -/
structure AState where
  heap : Nat → Block
  head : Nat
  allocated : List Nat
  mem : Nat → Nat

/- Dereference a header pointer; none models the undefined behaviour of a
   null dereference. -/
def readB (s : AState) (a : Nat) : Option Block :=
  if a = 0 then none else some (s.heap a)

/- Store a whole header. -/
def setB (s : AState) (a : Nat) (b : Block) : AState :=
  { s with heap := fun x => if x = a then b else s.heap x }

/- The single field store (*a).size = v. -/
def storeSize (s : AState) (a v : Nat) : AState := setB s a { s.heap a with size := v }

/- The single field store (*a).next = v. -/
def storeNext (s : AState) (a v : Nat) : AState := setB s a { s.heap a with next := v }

/- The single field store (*a).free = v. -/
def storeFree (s : AState) (a : Nat) (v : Bool) : AState := setB s a { s.heap a with free := v }

/- ALLOCATED.add (Vec::push). -/
def addAlloc (s : AState) (a : Nat) : AState :=
  { s with allocated := s.allocated ++ [a] }

/- ALLOCATED.remove (removes the first occurrence, if any). -/
def delAlloc (s : AState) (a : Nat) : AState :=
  { s with allocated := s.allocated.erase a }

/- ptr::copy_nonoverlapping of n payload bytes from src to dst. -/
def memcpy (s : AState) (src dst n : Nat) : AState :=
  { s with mem := fun a => if dst ≤ a ∧ a < dst + n then s.mem (src + (a - dst)) else s.mem a }

/- The stores of split_block (alloc.rs lines 51-61), in source order: the
   new block header at current + needed receives the remainder size, the
   free mark and its list link (itself if the visited block was the only
   list node, i.e. prev == current, else the visited block's old link);
   then the predecessor's next is pointed at the new block (when prev is a
   distinct node), and the visited block is shrunk to needed bytes. -/
def split_writes (s : AState) (prev current needed : Nat) : AState :=
  storeSize
    (if prev = current then
      setB s (current + needed)
        { size := (s.heap current).size - needed, next := current + needed, free := true }
    else
      storeNext
        (setB s (current + needed)
          { size := (s.heap current).size - needed, next := (s.heap current).next, free := true })
        prev (current + needed))
    current needed

/- split_block from alloc.rs: the stores above, then the head is
   retargeted to the new block when the visited block was the head.  The
   stores do not change the head field, so the head test reads the
   original state. -/
def split_block (s : AState) (prev current needed : Nat) : AState :=
  if current = s.head then { split_writes s prev current needed with head := current + needed }
  else split_writes s prev current needed

/- Head update of the consume-whole branch of alloc (alloc.rs lines
   25-27): if the consumed block was the head, the head is retargeted to
   the search predecessor. -/
def consumeFinish (s0 : AState) (prev current : Nat) (s : AState) : AState :=
  if current = s0.head then { s with head := prev } else s

/- The first-fit search loop of alloc (alloc.rs lines 15-45).  On a fit,
   the block is marked allocated and either split (remainder at least
   header + alignment) or consumed whole (predecessor relinked past it);
   the payload pointer current + headerSize is returned and the block is
   registered. -/
def allocLoop (s : AState) (needed : Nat) : Nat → Nat → Nat → Option (Option Nat × AState)
  | 0, _, _ => none
  | fuel + 1, prev, current =>
    match readB s current with
    | none => none
    | some cb =>
      if cb.free ∧ needed ≤ cb.size then
        if headerSize + blockAlign ≤ cb.size - needed then
          some (some (current + headerSize),
            addAlloc (split_block (storeFree s current false) prev current needed) current)
        else
          some (some (current + headerSize),
            addAlloc (consumeFinish s prev current
              (storeNext (storeFree s current false) prev cb.next)) current)
      else
        if current = s.head then some (none, s)
        else allocLoop s needed fuel current cb.next

/- alloc from alloc.rs.  Note the source dereferences the free-list head
   before any null check: (*prev).next with prev = FREE_LIST_HEAD. -/
def alloc (fuel : Nat) (s : AState) (size : Nat) : Option (Option Nat × AState) :=
  if size = 0 then some (none, s)
  else
    match readB s s.head with
    | none => none
    | some hb => allocLoop s (neededFor size) fuel s.head hb.next

/- The insert-position search loop of free (free.rs lines 22-35).
   Returns the (current, next) pair at which the loop breaks. -/
def findInsert (s : AState) (block : Nat) : Nat → Nat → Nat → Option (Nat × Nat)
  | 0, _, _ => none
  | fuel + 1, current, next =>
    if current < block ∧ block < next then some (current, next)
    else if next ≤ current ∧ (current < block ∨ block < next) then some (current, next)
    else
      match readB s next with
      | none => none
      | some nb =>
        if next = s.head then some (next, nb.next)
        else findInsert s block fuel next nb.next

/- Head update of the forward merge of free (free.rs line 54): s0 is the
   state at entry of the coalescing section, whose (*block).next is the
   absorbed node next_after and whose head is still the head seen by the
   merge. -/
def fwdUpd (s0 : AState) (block : Nat) (s : AState) : AState :=
  if (s0.heap block).next = s0.head then { s with head := block } else s

/- Head update of the backward merge of free (free.rs line 64). -/
def bwdHeadUpd (s0 : AState) (block current : Nat) (s : AState) : AState :=
  if s0.head = block then { s with head := current } else s

/- The backward merge of free (free.rs lines 60-68): if the insert
   predecessor current physically ends at block, it absorbs block (sizes
   added, link bypassed, head retargeted when block was head).  Only the
   size field of current is written before (*block).next is read, so that
   read returns the entry value even when current aliases block. -/
def bwdStep (s : AState) (block current : Nat) : AState :=
  if current + (s.heap current).size = block then
    bwdHeadUpd s block current
      (storeNext (storeSize s current (wadd (s.heap current).size ((s.heap block).size))) current
        ((s.heap block).next))
  else s

/- The coalescing section of free (free.rs lines 40-69), entered after the
   freed block has been spliced between current and next: first the
   forward merge with next_after = (*block).next (note the source adds
   (*next).size, dereferencing the loop variable next), then the backward
   merge. -/
def coalesce (s : AState) (block current next : Nat) : Option AState :=
  match
    (if block + (s.heap block).size = (s.heap block).next then
      match readB s next with
      | none => none
      | some nb =>
        some (fwdUpd s block
          (storeNext (storeSize s block (wadd (s.heap block).size nb.size)) block
            ((s.heap next).next)))
    else some s) with
  | none => none
  | some s4 => some (bwdStep s4 block current)

/- The body of free after the header has been marked free and the address
   deregistered (free.rs lines 11-69): either install the block as the
   sole self-linked member of an empty list, or find the insert position,
   splice the block in, and coalesce. -/
def freeCore (fuel : Nat) (s : AState) (block : Nat) : Option AState :=
  if s.head = 0 then some { storeNext s block block with head := block }
  else
    match findInsert s block fuel s.head ((s.heap s.head).next) with
    | none => none
    | some (current, next) =>
      coalesce (storeNext (storeNext s block next) current block) block current next

/- free from free.rs: null is a no-op; otherwise the header at
   ptr - size_of::<Block>() is dereferenced unconditionally, marked free,
   deregistered, and spliced into the list. -/
def free (fuel : Nat) (s : AState) (p : Nat) : Option AState :=
  if p = 0 then some s
  else
    match readB s (p - headerSize) with
    | none => none
    | some _ =>
      freeCore fuel (delAlloc (storeFree s (p - headerSize) true) (p - headerSize))
        (p - headerSize)

/- Head update of remove_free_block (realloc.rs lines 137-139). -/
def removeHeadUpd (s0 : AState) (block current : Nat) (s : AState) : AState :=
  if block = s0.head then { s with head := current } else s

/- The search loop of remove_free_block (realloc.rs lines 133-146). -/
def removeLoop (s : AState) (block : Nat) : Nat → Nat → Option AState
  | 0, _ => none
  | fuel + 1, current =>
    match readB s current with
    | none => none
    | some cb =>
      if cb.next = block then
        some (removeHeadUpd s block current (storeNext s current ((s.heap block).next)))
      else
        if cb.next = s.head then some s
        else removeLoop s block fuel cb.next

/- remove_free_block from realloc.rs. -/
def remove_free_block (fuel : Nat) (s : AState) (block : Nat) : Option AState :=
  if s.head = 0 then some s
  else if s.head = block ∧ (s.heap s.head).next = s.head then some { s with head := 0 }
  else removeLoop s block fuel s.head

/- The tail of try_in_place_extend_next_free_block after the neighbour has
   been unlinked and absorbed (realloc.rs lines 101-117): s2 is the state
   with the merged size already stored into the block.  If the merged
   block satisfies needed, an excess of at least MIN_SPLIT is split off
   (remainder header written at block + needed with a null link, block
   shrunk to needed) and handed to free. -/
def tryFinish (fuel : Nat) (block needed : Nat) (s2 : AState) : Option (Bool × AState) :=
  if needed ≤ (s2.heap block).size then
    if MIN_SPLIT ≤ (s2.heap block).size - needed then
      match free fuel
          (storeSize
            (setB s2 (block + needed)
              { size := (s2.heap block).size - needed, next := 0, free := true })
            block needed)
          (block + needed + headerSize) with
      | none => none
      | some s5 => some (true, s5)
    else some (true, s2)
  else some (false, s2)

/- try_in_place_extend_next_free_block from realloc.rs; base is the arena
   base address.  The physical neighbour block + (*block).size is probed,
   and if in bounds and free it is removed from the free list and its size
   absorbed. -/
def try_in_place (fuel base : Nat) (s : AState) (block needed : Nat) : Option (Bool × AState) :=
  match readB s block with
  | none => none
  | some bb =>
    if block + bb.size < base ∨ base + ARENA_SIZE ≤ block + bb.size then some (false, s)
    else if block + bb.size = block then some (false, s)
    else
      match readB s (block + bb.size) with
      | none => none
      | some nb =>
        if nb.free then
          match remove_free_block fuel s (block + bb.size) with
          | none => none
          | some s1 =>
            tryFinish fuel block needed
              (storeSize s1 block (wadd ((s1.heap block).size) ((s1.heap (block + bb.size)).size)))
        else some (false, s)

/- realloc from realloc.rs. -/
def realloc (fuel base : Nat) (s : AState) (p new_size : Nat) : Option (Option Nat × AState) :=
  if p = 0 then alloc fuel s new_size
  else if new_size = 0 then
    match free fuel s p with
    | none => none
    | some s1 => some (none, s1)
  else
    match readB s (p - headerSize) with
    | none => none
    | some bb =>
      if neededFor new_size ≤ bb.size then
        if MIN_SPLIT ≤ bb.size - neededFor new_size then
          match free fuel
              (storeSize
                (setB s (p - headerSize + neededFor new_size)
                  { size := bb.size - neededFor new_size, next := 0, free := true })
                (p - headerSize) (neededFor new_size))
              (p - headerSize + neededFor new_size + headerSize) with
          | none => none
          | some s3 => some (some p, s3)
        else some (some p, s)
      else
        match try_in_place fuel base s (p - headerSize) (neededFor new_size) with
        | none => none
        | some (true, s1) => some (some p, s1)
        | some (false, s1) =>
          match alloc fuel s1 new_size with
          | none => none
          | some (none, s2) => some (none, s2)
          | some (some np, s2) =>
            match free fuel
                (delAlloc (memcpy s2 p np (min (wsub bb.size headerSize) new_size))
                  (p - headerSize))
                p with
            | none => none
            | some s5 => some (some np, s5)

/- init_arena from lib.rs, for an arena whose backing storage starts at
   base (the source computes the aligned start with the same mask formula
   as align_up); the arena bytes start zeroed. -/
def init_arena (base : Nat) : AState :=
  { heap := fun a =>
      if a = align_up base blockAlign then
        { size := ARENA_SIZE - (align_up base blockAlign - base)
          next := align_up base blockAlign
          free := true }
      else { size := 0, next := 0, free := false }
    head := align_up base blockAlign
    allocated := []
    mem := fun _ => 0 }

/- The concrete initial state used by the concrete executions: the
   backing region is 16-aligned (repr(align(16))), represented at base
   16. -/
def initState : AState := init_arena 16

/- Observation of the free list: the sequence of nodes visited starting at
   address current and stopping (inclusively) when the head is reached;
   none when the walk hits null or does not close within the fuel. -/
def searchChain (s : AState) : Nat → Nat → Option (List Nat)
  | 0, _ => none
  | fuel + 1, current =>
    if current = 0 then none
    else if current = s.head then some [current]
    else
      match searchChain s fuel ((s.heap current).next) with
      | none => none
      | some L => some (current :: L)

/- The effect of the fit branch of the alloc search loop, once the fitting
   block b and its traversal predecessor prv are known (extracted verbatim
   from the two branches of allocLoop). -/
def allocFin (s : AState) (prv b needed : Nat) : AState :=
  if headerSize + blockAlign ≤ (s.heap b).size - needed then
    addAlloc (split_block (storeFree s b false) prv b needed) b
  else
    addAlloc (consumeFinish s prv b
      (storeNext (storeFree s b false) prv ((s.heap b).next))) b

/- Concrete executions used by the claims below. -/

/- alloc of 1048528 bytes from the fresh arena: needed = 1048560, the
   remainder 16 is below the minimum split size, so the single free block
   is consumed whole. -/
def exhaustA : Option (Option Nat × AState) := alloc 20 initState 1048528

def exhaustState : AState := (exhaustA.getD (none, initState)).2

/- alloc of 100 bytes from the fresh arena: splits the initial block into
   an allocated block at 16 (size 144) and a free block at 160. -/
def allocA : Option (Option Nat × AState) := alloc 20 initState 100

def st1 : AState := (allocA.getD (none, initState)).2

/- realloc growing the first allocation so that it absorbs the whole free
   block exactly: remove_free_block empties the free list (head null). -/
def growAll : Option (Option Nat × AState) := realloc 20 16 st1 48 1048544

def emptyHeadState : AState := (growAll.getD (none, initState)).2

/- The arena state reached from the fresh arena by alloc(100) = 48,
   alloc(100) = 192, free(48): the block at 160 (payload 192, size 144) is
   live between the free block at 16 (size 144) and the free block at 304
   (size 1048288, the list head).  Written out directly so that the
   growth-failure execution below stays one level deep. -/
def gfState : AState :=
  { heap := fun a =>
      if a = 16 then { size := 144, next := 304, free := true }
      else if a = 160 then { size := 144, next := 160, free := false }
      else if a = 304 then { size := 1048288, next := 16, free := true }
      else { size := 0, next := 0, free := false }
    head := 304
    allocated := [160]
    mem := fun _ => 0 }

/- realloc growing the middle block past what absorbing its free right
   neighbour can provide: the in-place merge fires and mutates the block
   header and the free list, then the fallback alloc fails and realloc
   returns null. -/
def growFail : Option (Option Nat × AState) := realloc 20 16 gfState 192 1048401

def gfS : AState := (growFail.getD (none, gfState)).2

/- alloc of 500 bytes from the fresh arena: allocated block at 16 of size
   544, free block at 560; used as the shrink witness. -/
def allocBig : Option (Option Nat × AState) := alloc 20 initState 500

def st5 : AState := (allocBig.getD (none, initState)).2

/- A state whose free list already contains the block at 16 (between the
   head at 96 and itself): freeing its payload pointer 48 a second time
   splices the block in again. -/
def dfState : AState :=
  { heap := fun a =>
      if a = 16 then { size := 48, next := 96, free := true }
      else if a = 96 then { size := 32, next := 16, free := true }
      else { size := 0, next := 0, free := false }
    head := 96
    allocated := []
    mem := fun _ => 0 }

/- A family of states holding two physically adjacent allocated blocks A
   (address 16, size sa) and B (address 16 + sa, size sb), an allocated
   separator block of size 48, and a single free block F after it (so that
   neither A nor B touches another free block). -/
def pairState (sa sb : Nat) : AState :=
  { heap := fun a =>
      if a = 16 then { size := sa, next := 0, free := false }
      else if a = 16 + sa then { size := sb, next := 0, free := false }
      else if a = 16 + sa + sb then { size := 48, next := 0, free := false }
      else if a = 64 + sa + sb then { size := 4096, next := 64 + sa + sb, free := true }
      else { size := 0, next := 0, free := false }
    head := 64 + sa + sb
    allocated := [16, 16 + sa, 16 + sa + sb]
    mem := fun _ => 0 }

/- The free output of the double-free execution on dfState. -/
def dfS : AState := (free 10 dfState 48).getD dfState

/- Basic lemmas about the state primitives. -/

theorem heap_setB (s : AState) (a : Nat) (b : Block) (x : Nat) :
    (setB s a b).heap x = if x = a then b else s.heap x := rfl

theorem head_setB (s : AState) (a : Nat) (b : Block) : (setB s a b).head = s.head := rfl

theorem mem_setB (s : AState) (a : Nat) (b : Block) : (setB s a b).mem = s.mem := rfl

theorem allocated_setB (s : AState) (a : Nat) (b : Block) :
    (setB s a b).allocated = s.allocated := rfl

theorem readB_eq_some (s : AState) (a : Nat) (h : a ≠ 0) :
    readB s a = some (s.heap a) := by
  simp [readB, h]

theorem heap_storeSize (s : AState) (a v x : Nat) :
    (storeSize s a v).heap x = if x = a then { s.heap a with size := v } else s.heap x := rfl

theorem heap_storeNext (s : AState) (a v x : Nat) :
    (storeNext s a v).heap x = if x = a then { s.heap a with next := v } else s.heap x := rfl

theorem heap_storeFree (s : AState) (a : Nat) (v : Bool) (x : Nat) :
    (storeFree s a v).heap x = if x = a then { s.heap a with free := v } else s.heap x := rfl

theorem flag_storeSize (s : AState) (a v x : Nat) :
    ((storeSize s a v).heap x).free = (s.heap x).free := by
  by_cases hx : x = a
  · subst hx; simp [heap_storeSize]
  · simp [heap_storeSize, hx]

theorem flag_storeNext (s : AState) (a v x : Nat) :
    ((storeNext s a v).heap x).free = (s.heap x).free := by
  by_cases hx : x = a
  · subst hx; simp [heap_storeNext]
  · simp [heap_storeNext, hx]

theorem heap_fwdUpd (s0 : AState) (b : Nat) (t : AState) : (fwdUpd s0 b t).heap = t.heap := by
  unfold fwdUpd; split <;> rfl

theorem mem_fwdUpd (s0 : AState) (b : Nat) (t : AState) : (fwdUpd s0 b t).mem = t.mem := by
  unfold fwdUpd; split <;> rfl

theorem allocated_fwdUpd (s0 : AState) (b : Nat) (t : AState) :
    (fwdUpd s0 b t).allocated = t.allocated := by
  unfold fwdUpd; split <;> rfl

theorem heap_bwdHeadUpd (s0 : AState) (b c : Nat) (t : AState) :
    (bwdHeadUpd s0 b c t).heap = t.heap := by
  unfold bwdHeadUpd; split <;> rfl

theorem mem_bwdHeadUpd (s0 : AState) (b c : Nat) (t : AState) :
    (bwdHeadUpd s0 b c t).mem = t.mem := by
  unfold bwdHeadUpd; split <;> rfl

theorem allocated_bwdHeadUpd (s0 : AState) (b c : Nat) (t : AState) :
    (bwdHeadUpd s0 b c t).allocated = t.allocated := by
  unfold bwdHeadUpd; split <;> rfl

theorem mem_bwdStep (t : AState) (b c : Nat) : (bwdStep t b c).mem = t.mem := by
  unfold bwdStep
  split
  · rw [mem_bwdHeadUpd]; rfl
  · rfl

theorem allocated_bwdStep (t : AState) (b c : Nat) :
    (bwdStep t b c).allocated = t.allocated := by
  unfold bwdStep
  split
  · rw [allocated_bwdHeadUpd]; rfl
  · rfl

theorem heap_bwdStep_outside (t : AState) (b c x : Nat) (hx : x ≠ c) :
    (bwdStep t b c).heap x = t.heap x := by
  unfold bwdStep
  split
  · rw [heap_bwdHeadUpd, heap_storeNext, if_neg hx, heap_storeSize, if_neg hx]
  · rfl

theorem flag_bwdStep (t : AState) (b c x : Nat) :
    ((bwdStep t b c).heap x).free = (t.heap x).free := by
  unfold bwdStep
  split
  · rw [heap_bwdHeadUpd, flag_storeNext, flag_storeSize]
  · rfl

/- The coalescing section only rewires and resizes the spliced block and
   its insert predecessor: the arena bytes, the registry and every free
   flag are unchanged, and every header other than block and current is
   untouched. -/
theorem coalesce_facts (s : AState) (block current next : Nat) (s' : AState)
    (h : coalesce s block current next = some s') :
    s'.mem = s.mem ∧ s'.allocated = s.allocated ∧
    (∀ x, ((s'.heap x).free) = ((s.heap x).free)) ∧
    (∀ x, x ≠ block → x ≠ current → s'.heap x = s.heap x) := by
  rw [coalesce] at h
  by_cases hc1 : block + (s.heap block).size = (s.heap block).next
  · rw [if_pos hc1] at h
    cases hrn : readB s next with
    | none => rw [hrn] at h; cases h
    | some nb =>
      rw [hrn] at h
      simp only at h
      cases h
      refine ⟨?_, ?_, fun x => ?_, fun x hxb hxc => ?_⟩
      · rw [mem_bwdStep, mem_fwdUpd]; rfl
      · rw [allocated_bwdStep, allocated_fwdUpd]; rfl
      · rw [flag_bwdStep, heap_fwdUpd, flag_storeNext, flag_storeSize]
      · rw [heap_bwdStep_outside _ _ _ _ hxc, heap_fwdUpd,
          heap_storeNext, if_neg hxb, heap_storeSize, if_neg hxb]
  · rw [if_neg hc1] at h
    simp only at h
    cases h
    exact ⟨mem_bwdStep s block current, allocated_bwdStep s block current,
      fun x => flag_bwdStep s block current x,
      fun x _ hxc => heap_bwdStep_outside s block current x hxc⟩

/- free always marks the addressed header free, removes it from the
   registry and leaves the arena bytes alone, for any non-null pointer. -/
theorem free_facts (fuel : Nat) (s : AState) (p : Nat) (s' : AState)
    (hp : p ≠ 0) (h : free fuel s p = some s') :
    ((s'.heap (p - headerSize)).free) = true ∧
    s'.allocated = s.allocated.erase (p - headerSize) ∧
    s'.mem = s.mem := by
  rw [free, if_neg hp] at h
  cases hrd : readB s (p - headerSize) with
  | none => rw [hrd] at h; cases h
  | some bb =>
    rw [hrd] at h
    simp only at h
    rw [freeCore] at h
    by_cases hh : (delAlloc (storeFree s (p - headerSize) true) (p - headerSize)).head = 0
    · rw [if_pos hh] at h
      cases h
      refine ⟨?_, rfl, rfl⟩
      show (((storeNext (delAlloc (storeFree s (p - headerSize) true) (p - headerSize))
        (p - headerSize) (p - headerSize)).heap (p - headerSize)).free) = true
      rw [flag_storeNext]
      show ((storeFree s (p - headerSize) true).heap (p - headerSize)).free = true
      rw [heap_storeFree, if_pos rfl]
    · rw [if_neg hh] at h
      cases hfi : findInsert (delAlloc (storeFree s (p - headerSize) true) (p - headerSize))
          (p - headerSize) fuel
          ((delAlloc (storeFree s (p - headerSize) true) (p - headerSize)).head)
          (((delAlloc (storeFree s (p - headerSize) true) (p - headerSize)).heap
            ((delAlloc (storeFree s (p - headerSize) true) (p - headerSize)).head)).next) with
      | none => rw [hfi] at h; cases h
      | some r =>
        rw [hfi] at h
        obtain ⟨current, next⟩ := r
        simp only at h
        obtain ⟨hm, ha, hflag, _⟩ := coalesce_facts _ _ _ _ _ h
        refine ⟨?_, ?_, ?_⟩
        · rw [hflag, flag_storeNext, flag_storeNext]
          show ((storeFree s (p - headerSize) true).heap (p - headerSize)).free = true
          rw [heap_storeFree, if_pos rfl]
        · rw [ha]; rfl
        · rw [hm]; rfl

/-- Claim C9: free performs no validation of its argument.  For every
non-null p (whether or not p was ever returned by alloc or realloc), free
unconditionally interprets p - header_size as a Block header, sets its
free flag, deregisters it and splices it into the free list.  In
particular a second free of the pointer 48, whose block at 16 is already
in the free list of dfState, is not rejected: the block is spliced in
again behind itself (its next now points to itself while the head node
96 also points at it), corrupting the cycle. -/
theorem free_no_validation :
    (∀ (fuel : Nat) (s : AState) (p : Nat) (s' : AState), p ≠ 0 → free fuel s p = some s' →
      ((s'.heap (p - headerSize)).free) = true ∧
      s'.allocated = s.allocated.erase (p - headerSize) ∧
      s'.mem = s.mem) ∧
    (dfState.heap 16).free = true ∧
    (free 10 dfState 48).map (fun t => ((t.heap 16).next, (t.heap 96).next, t.head)) =
      some (16, 16, 96) :=
  ⟨fun fuel s p s' hp h => free_facts fuel s p s' hp h, by decide, by decide⟩

/-- Witness for C9: the universal part applied to the double-free input. -/
theorem free_no_validation_w :
    ((dfS.heap 16).free) = true ∧
    dfS.allocated = dfState.allocated.erase 16 ∧
    dfS.mem = dfState.mem :=
  free_no_validation.1 10 dfState 48 dfS (by decide) (by rfl)

/- Free-list chain machinery. -/

theorem searchChain_head_mem (s : AState) :
    ∀ (fuel c : Nat) (L : List Nat), searchChain s fuel c = some L → s.head ∈ L := by
  intro fuel
  induction fuel with
  | zero => intro c L h; simp [searchChain] at h
  | succ fuel ih =>
    intro c L hch
    rw [searchChain] at hch
    by_cases h0 : c = 0
    · simp [h0] at hch
    · rw [if_neg h0] at hch
      by_cases hhd : c = s.head
      · rw [if_pos hhd] at hch
        cases hch
        rw [hhd]
        exact List.mem_singleton.mpr rfl
      · rw [if_neg hhd] at hch
        cases hch' : searchChain s fuel ((s.heap c).next) with
        | none => rw [hch'] at hch; cases hch
        | some L' =>
          rw [hch'] at hch
          cases hch
          exact List.mem_cons_of_mem c (ih ((s.heap c).next) L' hch')

theorem searchChain_ne_zero (s : AState) :
    ∀ (fuel c : Nat) (L : List Nat), searchChain s fuel c = some L → ∀ a ∈ L, a ≠ 0 := by
  intro fuel
  induction fuel with
  | zero => intro c L h; simp [searchChain] at h
  | succ fuel ih =>
    intro c L hch a ha
    rw [searchChain] at hch
    by_cases h0 : c = 0
    · simp [h0] at hch
    · rw [if_neg h0] at hch
      by_cases hhd : c = s.head
      · rw [if_pos hhd] at hch
        cases hch
        rw [List.mem_singleton.mp ha]
        exact h0
      · rw [if_neg hhd] at hch
        cases hch' : searchChain s fuel ((s.heap c).next) with
        | none => rw [hch'] at hch; cases hch
        | some L' =>
          rw [hch'] at hch
          cases hch
          cases List.mem_cons.mp ha with
          | inl h => rw [h]; exact h0
          | inr h => exact ih ((s.heap c).next) L' hch' a h

/- The chain is stable under heap writes that do not touch the next field
   of any chain node (and leave the head in place). -/
theorem searchChain_congr (s t : AState) (hh : t.head = s.head) :
    ∀ (fuel c : Nat) (L : List Nat), searchChain s fuel c = some L →
      (∀ a ∈ L, (t.heap a).next = (s.heap a).next) →
      searchChain t fuel c = some L := by
  intro fuel
  induction fuel with
  | zero => intro c L h _; simp [searchChain] at h
  | succ fuel ih =>
    intro c L hch hnx
    rw [searchChain] at hch
    rw [searchChain, hh]
    by_cases h0 : c = 0
    · simp [h0] at hch
    · rw [if_neg h0] at hch
      rw [if_neg h0]
      by_cases hhd : c = s.head
      · rw [if_pos hhd] at hch
        rw [if_pos hhd]
        exact hch
      · rw [if_neg hhd] at hch
        rw [if_neg hhd]
        cases hch' : searchChain s fuel ((s.heap c).next) with
        | none => rw [hch'] at hch; cases hch
        | some L' =>
          rw [hch'] at hch
          have hL : L = c :: L' := by cases hch; rfl
          have hcn : (t.heap c).next = (s.heap c).next :=
            hnx c (by rw [hL]; exact List.mem_cons_self c L')
          rw [hcn, ih ((s.heap c).next) L' hch'
            (fun a ha => hnx a (by rw [hL]; exact List.mem_cons_of_mem c ha))]
          simp only
          rw [hL]

/- The insert-position loop of free always terminates with a pair whose
   first component is the start node or a chain node, provided the chain
   closes. -/
theorem findInsert_closes (s : AState) (blk : Nat) :
    ∀ (fuel c : Nat) (L : List Nat), searchChain s fuel c = some L →
      ∀ cur, ∃ r, findInsert s blk fuel cur c = some r ∧ (r.1 = cur ∨ r.1 ∈ L) := by
  intro fuel
  induction fuel with
  | zero => intro c L h _; simp [searchChain] at h
  | succ fuel ih =>
    intro c L hch cur
    rw [searchChain] at hch
    by_cases h0 : c = 0
    · simp [h0] at hch
    · rw [if_neg h0] at hch
      rw [findInsert]
      by_cases hb1 : cur < blk ∧ blk < c
      · rw [if_pos hb1]
        exact ⟨(cur, c), rfl, Or.inl rfl⟩
      · rw [if_neg hb1]
        by_cases hb2 : c ≤ cur ∧ (cur < blk ∨ blk < c)
        · rw [if_pos hb2]
          exact ⟨(cur, c), rfl, Or.inl rfl⟩
        · rw [if_neg hb2, readB_eq_some s c h0]
          simp only
          by_cases hhd : c = s.head
          · rw [if_pos hhd]
            rw [if_pos hhd] at hch
            cases hch
            exact ⟨(c, (s.heap c).next), rfl, Or.inr (List.mem_singleton.mpr rfl)⟩
          · rw [if_neg hhd]
            rw [if_neg hhd] at hch
            cases hch' : searchChain s fuel ((s.heap c).next) with
            | none => rw [hch'] at hch; cases hch
            | some L' =>
              rw [hch'] at hch
              have hL : L = c :: L' := by cases hch; rfl
              obtain ⟨r, hr, hm⟩ := ih ((s.heap c).next) L' hch' c
              refine ⟨r, hr, Or.inr ?_⟩
              rw [hL]
              cases hm with
              | inl h => rw [h]; exact List.mem_cons_self c L'
              | inr h => exact List.mem_cons_of_mem c h

/- The coalescing section cannot fail once the spliced block links to the
   found next node and is itself non-null. -/
theorem coalesce_isSome (s : AState) (block current next : Nat)
    (hb : block ≠ 0) (hnx : (s.heap block).next = next) :
    ∃ s', coalesce s block current next = some s' := by
  rw [coalesce]
  by_cases hc1 : block + (s.heap block).size = (s.heap block).next
  · rw [if_pos hc1]
    have hnx0 : next ≠ 0 := by
      intro he
      rw [he] at hnx
      rw [hnx] at hc1
      omega
    rw [readB_eq_some s next hnx0]
    simp only
    exact ⟨_, rfl⟩
  · rw [if_neg hc1]
    simp only
    exact ⟨_, rfl⟩

/- Full characterisation of a successful free on a state whose free-list
   chain closes and does not contain the freed block: the call succeeds,
   marks the block free, deregisters it, keeps the arena bytes and leaves
   every header outside the chain and distinct from the block untouched. -/
theorem free_chain_facts (fuel : Nat) (s : AState) (p : Nat) (L : List Nat)
    (hp : p ≠ 0)
    (hb0 : p - headerSize ≠ 0)
    (hh : s.head ≠ 0)
    (hch : searchChain s fuel ((s.heap s.head).next) = some L)
    (hbL : p - headerSize ∉ L) :
    ∃ s', free fuel s p = some s' ∧
      s'.mem = s.mem ∧
      s'.allocated = s.allocated.erase (p - headerSize) ∧
      ((s'.heap (p - headerSize)).free) = true ∧
      (∀ x, x ≠ p - headerSize → x ∉ L → s'.heap x = s.heap x) := by
  have hheadL : s.head ∈ L := searchChain_head_mem s fuel _ L hch
  have hhb : s.head ≠ p - headerSize := fun he => hbL (he ▸ hheadL)
  have hs2heap : ∀ x, x ≠ p - headerSize →
      (delAlloc (storeFree s (p - headerSize) true) (p - headerSize)).heap x = s.heap x := by
    intro x hx
    show (storeFree s (p - headerSize) true).heap x = s.heap x
    rw [heap_storeFree, if_neg hx]
  have hch2 : searchChain (delAlloc (storeFree s (p - headerSize) true) (p - headerSize)) fuel
      ((s.heap s.head).next) = some L :=
    searchChain_congr s (delAlloc (storeFree s (p - headerSize) true) (p - headerSize))
      rfl fuel _ L hch
      (fun a ha => by rw [hs2heap a (fun he => hbL (he ▸ ha))])
  obtain ⟨r, hfi, hcm⟩ := findInsert_closes
    (delAlloc (storeFree s (p - headerSize) true) (p - headerSize)) (p - headerSize)
    fuel ((s.heap s.head).next) L hch2
    ((delAlloc (storeFree s (p - headerSize) true) (p - headerSize)).head)
  obtain ⟨c, nx⟩ := r
  have hcL : c ∈ L := by
    cases hcm with
    | inl h =>
      have h' : c = s.head := h
      rw [h']; exact hheadL
    | inr h => exact h
  have hcblk : (p - headerSize) ≠ c := fun he => hbL (he ▸ hcL)
  have h4blk : ((storeNext (storeNext
        (delAlloc (storeFree s (p - headerSize) true) (p - headerSize))
        (p - headerSize) nx) c (p - headerSize)).heap (p - headerSize)).next = nx := by
    rw [heap_storeNext, if_neg hcblk, heap_storeNext, if_pos rfl]
  obtain ⟨s', hco⟩ := coalesce_isSome
    (storeNext (storeNext (delAlloc (storeFree s (p - headerSize) true) (p - headerSize))
      (p - headerSize) nx) c (p - headerSize))
    (p - headerSize) c nx hb0 h4blk
  obtain ⟨hm, ha, hflag, hout⟩ := coalesce_facts _ _ _ _ _ hco
  refine ⟨s', ?_, ?_, ?_, ?_, ?_⟩
  · rw [free, if_neg hp, readB_eq_some s (p - headerSize) hb0]
    simp only
    have hh' : ¬((delAlloc (storeFree s (p - headerSize) true) (p - headerSize)).head = 0) := hh
    rw [freeCore, if_neg hh']
    have hrw : ((delAlloc (storeFree s (p - headerSize) true) (p - headerSize)).heap
        ((delAlloc (storeFree s (p - headerSize) true) (p - headerSize)).head)).next =
        (s.heap s.head).next := by
      show ((delAlloc (storeFree s (p - headerSize) true) (p - headerSize)).heap s.head).next = _
      rw [hs2heap s.head hhb]
    rw [hrw, hfi]
    simp only
    exact hco
  · rw [hm]; rfl
  · rw [ha]; rfl
  · rw [hflag, flag_storeNext, flag_storeNext]
    show ((storeFree s (p - headerSize) true).heap (p - headerSize)).free = true
    rw [heap_storeFree, if_pos rfl]
  · intro x hxb hxL
    have hxc : x ≠ c := fun he => hxL (he ▸ hcL)
    rw [hout x hxb hxc, heap_storeNext, if_neg hxc, heap_storeNext, if_neg hxb,
      hs2heap x hxb]

/- With every chain node free, the first node that fits is the first node
   that passes the full test of the search loop. -/
theorem find_free_equiv (s : AState) (needed : Nat) :
    ∀ L : List Nat, (∀ a ∈ L, (s.heap a).free = true) →
      L.find? (fun a => (s.heap a).free && decide (needed ≤ (s.heap a).size)) =
      L.find? (fun a => decide (needed ≤ (s.heap a).size)) := by
  intro L
  induction L with
  | nil => intro _; rfl
  | cons a l ih =>
    intro hfree
    have ha : (s.heap a).free = true := hfree a (List.mem_cons_self a l)
    by_cases hle : needed ≤ (s.heap a).size
    · rw [List.find?_cons_of_pos _ (by simp [ha, hle]),
        List.find?_cons_of_pos _ (by simp [hle])]
    · rw [List.find?_cons_of_neg _ (by simp [ha, hle]),
        List.find?_cons_of_neg _ (by simp [hle])]
      exact ih (fun x hx => hfree x (List.mem_cons_of_mem a hx))

theorem heap_split_block (s : AState) (prev current needed : Nat) :
    (split_block s prev current needed).heap = (split_writes s prev current needed).heap := by
  unfold split_block
  split <;> rfl

theorem heap_consumeFinish (s0 : AState) (prev current : Nat) (t : AState) :
    (consumeFinish s0 prev current t).heap = t.heap := by
  unfold consumeFinish
  split <;> rfl

/- Full description of the effect of the fit branch: registration of the
   block, the split placement (remainder block at b + needed spliced into
   the old list position, head retargeted when b was the head) when the
   remainder reaches header + alignment, the whole-consumption unlink
   otherwise, and no other header touched. -/
theorem allocFin_facts (s : AState) (prv b needed : Nat)
    (hbn : b ≠ b + needed) (hpn : prv ≠ b + needed) :
    (allocFin s prv b needed).mem = s.mem ∧
    (allocFin s prv b needed).allocated = s.allocated ++ [b] ∧
    (if headerSize + blockAlign ≤ (s.heap b).size - needed then
      (allocFin s prv b needed).heap b =
        { size := needed, next := (s.heap b).next, free := false } ∧
      (allocFin s prv b needed).heap (b + needed) =
        { size := (s.heap b).size - needed
          next := if prv = b then b + needed else (s.heap b).next
          free := true } ∧
      (prv ≠ b → ((allocFin s prv b needed).heap prv).next = b + needed) ∧
      (allocFin s prv b needed).head = (if b = s.head then b + needed else s.head)
    else
      (allocFin s prv b needed).heap b = { s.heap b with free := false } ∧
      ((allocFin s prv b needed).heap prv).next = (s.heap b).next ∧
      (allocFin s prv b needed).head = (if b = s.head then prv else s.head)) ∧
    (∀ x, x ≠ b → x ≠ b + needed → x ≠ prv →
      (allocFin s prv b needed).heap x = s.heap x) := by
  by_cases hsp : headerSize + blockAlign ≤ (s.heap b).size - needed
  · refine ⟨?_, ?_, ?_, ?_⟩
    · unfold allocFin split_block split_writes consumeFinish
      split_ifs <;> rfl
    · unfold allocFin split_block split_writes consumeFinish
      split_ifs <;> rfl
    · rw [if_pos hsp]
      refine ⟨?_, ?_, ?_, ?_⟩
      · unfold allocFin
        rw [if_pos hsp]
        show (split_block (storeFree s b false) prv b needed).heap b = _
        rw [heap_split_block]
        unfold split_writes
        by_cases hpb : prv = b
        · rw [if_pos hpb, heap_storeSize, if_pos rfl, heap_setB, if_neg hbn,
            heap_storeFree, if_pos rfl]
        · rw [if_neg hpb, heap_storeSize, if_pos rfl, heap_storeNext,
            if_neg (fun he => hpb he.symm), heap_setB, if_neg hbn,
            heap_storeFree, if_pos rfl]
      · unfold allocFin
        rw [if_pos hsp]
        show (split_block (storeFree s b false) prv b needed).heap (b + needed) = _
        rw [heap_split_block]
        unfold split_writes
        by_cases hpb : prv = b
        · rw [if_pos hpb, heap_storeSize, if_neg (fun he => hbn he.symm),
            heap_setB, if_pos rfl, if_pos hpb, heap_storeFree, if_pos rfl]
        · rw [if_neg hpb, heap_storeSize, if_neg (fun he => hbn he.symm),
            heap_storeNext, if_neg (fun he => hpn he.symm),
            heap_setB, if_pos rfl, if_neg hpb]
          rw [heap_storeFree, if_pos rfl]
      · intro hpb
        unfold allocFin
        rw [if_pos hsp]
        show ((split_block (storeFree s b false) prv b needed).heap prv).next = _
        rw [heap_split_block]
        unfold split_writes
        rw [if_neg hpb, heap_storeSize, if_neg hpb, heap_storeNext, if_pos rfl]
      · unfold allocFin
        rw [if_pos hsp]
        show (split_block (storeFree s b false) prv b needed).head = _
        unfold split_block
        by_cases hhd : b = s.head
        · rw [if_pos (show b = (storeFree s b false).head from hhd), if_pos hhd]
        · rw [if_neg (show ¬(b = (storeFree s b false).head) from hhd), if_neg hhd]
          unfold split_writes
          split_ifs <;> rfl
    · intro x hxb hxn hxp
      unfold allocFin
      rw [if_pos hsp]
      show (split_block (storeFree s b false) prv b needed).heap x = s.heap x
      rw [heap_split_block]
      unfold split_writes
      by_cases hpb : prv = b
      · rw [if_pos hpb, heap_storeSize, if_neg hxb, heap_setB, if_neg hxn,
          heap_storeFree, if_neg hxb]
      · rw [if_neg hpb, heap_storeSize, if_neg hxb, heap_storeNext, if_neg hxp,
          heap_setB, if_neg hxn, heap_storeFree, if_neg hxb]
  · refine ⟨?_, ?_, ?_, ?_⟩
    · unfold allocFin split_block split_writes consumeFinish
      split_ifs <;> rfl
    · unfold allocFin split_block split_writes consumeFinish
      split_ifs <;> rfl
    · rw [if_neg hsp]
      refine ⟨?_, ?_, ?_⟩
      · unfold allocFin
        rw [if_neg hsp]
        show (consumeFinish s prv b
          (storeNext (storeFree s b false) prv ((s.heap b).next))).heap b = _
        rw [heap_consumeFinish]
        by_cases hpb : prv = b
        · rw [heap_storeNext, if_pos hpb.symm, heap_storeFree, if_pos hpb]
        · rw [heap_storeNext, if_neg (fun he => hpb he.symm), heap_storeFree, if_pos rfl]
      · unfold allocFin
        rw [if_neg hsp]
        show ((consumeFinish s prv b
          (storeNext (storeFree s b false) prv ((s.heap b).next))).heap prv).next = _
        rw [heap_consumeFinish, heap_storeNext, if_pos rfl]
      · unfold allocFin
        rw [if_neg hsp]
        show (consumeFinish s prv b
          (storeNext (storeFree s b false) prv ((s.heap b).next))).head = _
        unfold consumeFinish
        by_cases hhd : b = s.head
        · rw [if_pos hhd, if_pos hhd]
        · rw [if_neg hhd, if_neg hhd]
          rfl
    · intro x hxb hxn hxp
      unfold allocFin
      rw [if_neg hsp]
      show (consumeFinish s prv b
        (storeNext (storeFree s b false) prv ((s.heap b).next))).heap x = s.heap x
      rw [heap_consumeFinish, heap_storeNext, if_neg hxp, heap_storeFree, if_neg hxb]

/- The search loop returns the payload pointer of the first visited node
   that passes the fit test, with the state effect of allocFin applied at
   that node and its traversal predecessor. -/
theorem allocLoop_first_fit (s : AState) (needed : Nat) :
    ∀ (fuel current prev : Nat) (L : List Nat) (b : Nat),
      searchChain s fuel current = some L →
      prev ≠ 0 →
      (s.heap prev).next = current →
      L.find? (fun a => (s.heap a).free && decide (needed ≤ (s.heap a).size)) = some b →
      ∃ prv, (prv = prev ∨ prv ∈ L) ∧ (s.heap prv).next = b ∧
        allocLoop s needed fuel prev current =
          some (some (b + headerSize), allocFin s prv b needed) := by
  intro fuel
  induction fuel with
  | zero => intro current prev L b h _ _ _; simp [searchChain] at h
  | succ fuel ih =>
    intro current prev L b hch hprev hpc hfind
    rw [searchChain] at hch
    by_cases h0 : current = 0
    · simp [h0] at hch
    · rw [if_neg h0] at hch
      rw [allocLoop, readB_eq_some s current h0]
      simp only
      by_cases hfit : (s.heap current).free = true ∧ needed ≤ (s.heap current).size
      · have hpredc : ((s.heap current).free && decide (needed ≤ (s.heap current).size)) = true := by
          simp [hfit.1, hfit.2]
        have hbc : b = current := by
          by_cases hhd : current = s.head
          · rw [if_pos hhd] at hch
            cases hch
            simp only [List.find?_cons, hpredc, Option.some.injEq] at hfind
            exact hfind.symm
          · rw [if_neg hhd] at hch
            cases hch' : searchChain s fuel ((s.heap current).next) with
            | none => rw [hch'] at hch; cases hch
            | some L' =>
              rw [hch'] at hch
              cases hch
              simp only [List.find?_cons, hpredc, Option.some.injEq] at hfind
              exact hfind.symm
        subst hbc
        rw [if_pos hfit]
        refine ⟨prev, Or.inl rfl, hpc, ?_⟩
        unfold allocFin
        by_cases hsp : headerSize + blockAlign ≤ (s.heap b).size - needed
        · rw [if_pos hsp, if_pos hsp]
        · rw [if_neg hsp, if_neg hsp]
      · rw [if_neg hfit]
        have hpredc :
            ((s.heap current).free && decide (needed ≤ (s.heap current).size)) = false := by
          by_cases hfr : (s.heap current).free = true
          · have hle : ¬ needed ≤ (s.heap current).size := fun hle => hfit ⟨hfr, hle⟩
            simp [hfr, hle]
          · simp [Bool.not_eq_true] at hfr
            simp [hfr]
        by_cases hhd : current = s.head
        · rw [if_pos hhd] at hch
          cases hch
          simp [List.find?_cons, hpredc] at hfind
        · rw [if_neg hhd] at hch
          rw [if_neg hhd]
          cases hch' : searchChain s fuel ((s.heap current).next) with
          | none => rw [hch'] at hch; cases hch
          | some L' =>
            rw [hch'] at hch
            cases hch
            simp only [List.find?_cons, hpredc] at hfind
            obtain ⟨prv, hm, hnx, heq⟩ := ih ((s.heap current).next) current L' b hch' h0 rfl hfind
            refine ⟨prv, ?_, hnx, heq⟩
            cases hm with
            | inl h => exact Or.inr (h ▸ List.mem_cons_self current L')
            | inr h => exact Or.inr (List.mem_cons_of_mem current h)

/-- Claim C5: for every size > 0, starting just past the free-list head,
alloc returns the payload pointer (block address + header size) of the
first chain node whose size is at least needed = align_up(size +
header_size, alignment) (under the invariant that every chain node is
free); the effect is exactly the fit-branch effect at that node b and its
traversal predecessor prv: the block is registered, and when the
remainder reaches header + alignment the block is shrunk to needed and
marked allocated, the free remainder block is created at b + needed and
spliced into b's old list position (linked to itself when b was the sole
node, with the head retargeted to the remainder when b was the head);
otherwise the block is consumed whole and unlinked (predecessor relinked
to b's successor, head retargeted to the predecessor when b was the
head).  No other header is touched and the arena bytes are unchanged. -/
theorem alloc_first_fit
    (fuel size : Nat) (s : AState) (L : List Nat) (b : Nat)
    (hsz : size ≠ 0) (hh : s.head ≠ 0)
    (hch : searchChain s fuel ((s.heap s.head).next) = some L)
    (hfree : ∀ a ∈ L, (s.heap a).free = true)
    (hfind : L.find? (fun a => decide (neededFor size ≤ (s.heap a).size)) = some b)
    (hfreshL : ∀ a ∈ L, a ≠ b + neededFor size)
    (hfreshH : s.head ≠ b + neededFor size)
    (hn48 : headerSize + blockAlign ≤ neededFor size) :
    ∃ prv, (prv = s.head ∨ prv ∈ L) ∧ (s.heap prv).next = b ∧
      alloc fuel s size = some (some (b + headerSize), allocFin s prv b (neededFor size)) ∧
      (allocFin s prv b (neededFor size)).mem = s.mem ∧
      (allocFin s prv b (neededFor size)).allocated = s.allocated ++ [b] ∧
      (if headerSize + blockAlign ≤ (s.heap b).size - neededFor size then
        (allocFin s prv b (neededFor size)).heap b =
          { size := neededFor size, next := (s.heap b).next, free := false } ∧
        (allocFin s prv b (neededFor size)).heap (b + neededFor size) =
          { size := (s.heap b).size - neededFor size
            next := if prv = b then b + neededFor size else (s.heap b).next
            free := true } ∧
        (prv ≠ b → ((allocFin s prv b (neededFor size)).heap prv).next = b + neededFor size) ∧
        (allocFin s prv b (neededFor size)).head =
          (if b = s.head then b + neededFor size else s.head)
      else
        (allocFin s prv b (neededFor size)).heap b = { s.heap b with free := false } ∧
        ((allocFin s prv b (neededFor size)).heap prv).next = (s.heap b).next ∧
        (allocFin s prv b (neededFor size)).head = (if b = s.head then prv else s.head)) ∧
      (∀ x, x ≠ b → x ≠ b + neededFor size → x ≠ prv →
        (allocFin s prv b (neededFor size)).heap x = s.heap x) := by
  have hfind' : L.find?
      (fun a => (s.heap a).free && decide (neededFor size ≤ (s.heap a).size)) = some b := by
    rw [find_free_equiv s (neededFor size) L hfree]
    exact hfind
  obtain ⟨prv, hm, hnx, heq⟩ := allocLoop_first_fit s (neededFor size) fuel
    ((s.heap s.head).next) s.head L b hch hh rfl hfind'
  have hbn : b ≠ b + neededFor size := by
    unfold headerSize blockAlign at hn48
    omega
  have hpn : prv ≠ b + neededFor size := by
    cases hm with
    | inl h => rw [h]; exact hfreshH
    | inr h => exact hfreshL prv h
  obtain ⟨hmem, hal, hbig, hout⟩ := allocFin_facts s prv b (neededFor size) hbn hpn
  refine ⟨prv, hm, hnx, ?_, hmem, hal, hbig, hout⟩
  rw [alloc, if_neg hsz, readB_eq_some s s.head hh]
  exact heq

/-- Witness for C5: at the fresh arena with size = 100, the single chain
node 16 fits (needed = 144), the split fires, and alloc returns payload
48. -/
theorem alloc_first_fit_w :
    ∃ prv, (prv = initState.head ∨ prv ∈ [16]) ∧ (initState.heap prv).next = 16 ∧
      alloc 5 initState 100 =
        some (some (16 + headerSize), allocFin initState prv 16 (neededFor 100)) ∧
      (allocFin initState prv 16 (neededFor 100)).mem = initState.mem ∧
      (allocFin initState prv 16 (neededFor 100)).allocated = initState.allocated ++ [16] ∧
      (if headerSize + blockAlign ≤ (initState.heap 16).size - neededFor 100 then
        (allocFin initState prv 16 (neededFor 100)).heap 16 =
          { size := neededFor 100, next := (initState.heap 16).next, free := false } ∧
        (allocFin initState prv 16 (neededFor 100)).heap (16 + neededFor 100) =
          { size := (initState.heap 16).size - neededFor 100
            next := if prv = 16 then 16 + neededFor 100 else (initState.heap 16).next
            free := true } ∧
        (prv ≠ 16 →
          ((allocFin initState prv 16 (neededFor 100)).heap prv).next = 16 + neededFor 100) ∧
        (allocFin initState prv 16 (neededFor 100)).head =
          (if 16 = initState.head then 16 + neededFor 100 else initState.head)
      else
        (allocFin initState prv 16 (neededFor 100)).heap 16 =
          { initState.heap 16 with free := false } ∧
        ((allocFin initState prv 16 (neededFor 100)).heap prv).next =
          (initState.heap 16).next ∧
        (allocFin initState prv 16 (neededFor 100)).head =
          (if 16 = initState.head then prv else initState.head)) ∧
      (∀ x, x ≠ 16 → x ≠ 16 + neededFor 100 → x ≠ prv →
        (allocFin initState prv 16 (neededFor 100)).heap x = initState.heap x) :=
  alloc_first_fit 5 100 initState [16] 16
    (by decide) (by decide) (by decide) (by decide) (by decide)
    (by decide) (by decide) (by decide)

/-- Claim C2: for every pair of physically adjacent allocated blocks (the
block at 16 of size sa and the block at 16 + sa of size sb in the pair
arena, which also holds a third allocated separator block and one free
block at 64 + sa + sb heading the list), freeing both payloads in either
order leaves exactly one free block spanning their combined range: the
block at 16 has size sa + sb, is free, and is linked to the original free
block, and the free list read from the head is exactly
[16, 64 + sa + sb]; the per-call forward merge (second order) and
backward merge (first order) compose to achieve this. -/
theorem free_adjacent_coalesce (sa sb : Nat) (ha : 0 < sa) (hb : 0 < sb)
    (hU : sa + sb < U64) :
    (((free 5 (pairState sa sb) ((16 + sa) + headerSize)).bind
        (fun t => free 5 t (16 + headerSize))).map
        (fun S => (S.heap 16, S.heap (64 + sa + sb), S.head, S.allocated))) =
      some ({ size := sa + sb, next := 64 + sa + sb, free := true },
            { size := 4096, next := 16, free := true }, 64 + sa + sb, [16 + sa + sb]) ∧
    (((free 5 (pairState sa sb) ((16 + sa) + headerSize)).bind
        (fun t => free 5 t (16 + headerSize))).bind
        (fun S => searchChain S 3 ((S.heap S.head).next))) = some [16, 64 + sa + sb] ∧
    (((free 5 (pairState sa sb) (16 + headerSize)).bind
        (fun t => free 5 t ((16 + sa) + headerSize))).map
        (fun S => (S.heap 16, S.heap (64 + sa + sb), S.head, S.allocated))) =
      some ({ size := sa + sb, next := 64 + sa + sb, free := true },
            { size := 4096, next := 16, free := true }, 64 + sa + sb, [16 + sa + sb]) ∧
    (((free 5 (pairState sa sb) (16 + headerSize)).bind
        (fun t => free 5 t ((16 + sa) + headerSize))).bind
        (fun S => searchChain S 3 ((S.heap S.head).next))) = some [16, 64 + sa + sb] := by
  have h3 : (3 : Nat) = 2 + 1 := rfl
  have h2 : (2 : Nat) = 1 + 1 := rfl
  have h5 : (5 : Nat) = 4 + 1 := rfl
  have h4 : (4 : Nat) = 3 + 1 := rfl
  have n1 : ¬(16 + sa = 16) := by omega
  have n2 : ¬(16 = 16 + sa) := by omega
  have n3 : ¬(64 + sa + sb = 16) := by omega
  have n4 : ¬(16 = 64 + sa + sb) := by omega
  have n5 : ¬(64 + sa + sb = 16 + sa) := by omega
  have n6 : ¬(16 + sa = 64 + sa + sb) := by omega
  have n7 : ¬(64 + sa + sb = 16 + sa + sb) := by omega
  have n8 : ¬(16 + sa + sb = 64 + sa + sb) := by omega
  have n9 : ¬(16 + sa + sb = 16) := by omega
  have n10 : ¬(16 = 16 + sa + sb) := by omega
  have n11 : ¬(16 + sa + sb = 16 + sa) := by omega
  have n12 : ¬(16 + sa = 16 + sa + sb) := by omega
  have n13 : ¬(64 + sa + sb = 0) := by omega
  have n14 : ¬((16 : Nat) = 0) := by omega
  have n15 : ¬(16 + sa = 0) := by omega
  have n16 : ¬(16 + sa + sb = 0) := by omega
  have hp1 : ¬(16 + 32 = 0) := by omega
  have hp2 : ¬(16 + sa + 32 = 0) := by omega
  have hm1 : 16 + 32 - 32 = 16 := by omega
  have hm2 : 16 + sa + 32 - 32 = 16 + sa := by omega
  have o1f : ¬(64 + sa + sb < 16) := by omega
  have o2t : 16 < 64 + sa + sb := by omega
  have o3f : ¬(64 + sa + sb + 4096 = 16) := by omega
  have o4f : ¬(64 + sa + sb < 16 + sa) := by omega
  have o5t : 16 ≤ 64 + sa + sb := by omega
  have o6f : ¬(16 + sa < 16) := by omega
  have o7t : 16 < 16 + sa := by omega
  have o8t : 16 + sa < 64 + sa + sb := by omega
  have o9f : ¬(64 + sa + sb + 4096 = 16 + sa) := by omega
  have o10t : 16 + sa ≤ 64 + sa + sb := by omega
  have hmod : (sa + sb) % U64 = sa + sb := Nat.mod_eq_of_lt hU
  refine ⟨?_, ?_, ?_, ?_⟩ <;>
    simp only [searchChain, h3, h2, free, freeCore, findInsert, coalesce, bwdStep, bwdHeadUpd, fwdUpd,
    readB, delAlloc, storeFree, storeNext, storeSize, setB, pairState, headerSize, wadd,
    Option.bind, Option.map, List.erase_cons_head, List.erase_cons_tail, beq_iff_eq,
    eq_self_iff_true, not_false_eq_true, true_and, and_true, false_and, and_false,
    true_or, or_true, false_or, or_false, ite_true, ite_false, le_refl,
    h5, h4, n1, n2, n3, n4, n5, n6, n7, n8, n9, n10, n11, n12, n13, n14, n15, n16,
    hp1, hp2, hm1, hm2, o1f, o2t, o3f, o4f, o5t, o6f, o7t, o8t, o9f, o10t, hmod]

/-- Witness for C2: the pair arena with sa = 64 and sb = 80. -/
theorem free_adjacent_coalesce_w :
    (((free 5 (pairState 64 80) ((16 + 64) + headerSize)).bind
        (fun t => free 5 t (16 + headerSize))).map
        (fun S => (S.heap 16, S.heap (64 + 64 + 80), S.head, S.allocated))) =
      some ({ size := 64 + 80, next := 64 + 64 + 80, free := true },
            { size := 4096, next := 16, free := true }, 64 + 64 + 80, [16 + 64 + 80]) ∧
    (((free 5 (pairState 64 80) ((16 + 64) + headerSize)).bind
        (fun t => free 5 t (16 + headerSize))).bind
        (fun S => searchChain S 3 ((S.heap S.head).next))) = some [16, 64 + 64 + 80] ∧
    (((free 5 (pairState 64 80) (16 + headerSize)).bind
        (fun t => free 5 t ((16 + 64) + headerSize))).map
        (fun S => (S.heap 16, S.heap (64 + 64 + 80), S.head, S.allocated))) =
      some ({ size := 64 + 80, next := 64 + 64 + 80, free := true },
            { size := 4096, next := 16, free := true }, 64 + 64 + 80, [16 + 64 + 80]) ∧
    (((free 5 (pairState 64 80) (16 + headerSize)).bind
        (fun t => free 5 t ((16 + 64) + headerSize))).bind
        (fun S => searchChain S 3 ((S.heap S.head).next))) = some [16, 64 + 64 + 80] :=
  free_adjacent_coalesce 64 80 (by decide) (by decide) (by decide)

/-- Claim C6: realloc shrink path.  For a live block at b whose size
already covers needed = align_up(n + header_size, alignment), realloc of
its payload pointer returns the same pointer and moves no data (the arena
bytes are unchanged); when the remainder reaches the minimum split size
the block is shrunk to needed bytes (same next link, same free flag) and
the tail at b + needed is handed to the deallocation engine as a free
block; otherwise the state is returned completely unchanged. -/
theorem realloc_shrink_in_place
    (fuel base : Nat) (s : AState) (b n : Nat) (L : List Nat)
    (hb : b ≠ 0) (hn : n ≠ 0)
    (hh : s.head ≠ 0)
    (hch : searchChain s fuel ((s.heap s.head).next) = some L)
    (hbL : b ∉ L)
    (htL : b + neededFor n ∉ L)
    (hta : b + neededFor n ∉ s.allocated)
    (hneed : headerSize + blockAlign ≤ neededFor n)
    (hfit : neededFor n ≤ (s.heap b).size) :
    ∃ S, realloc fuel base s (b + headerSize) n = some (some (b + headerSize), S) ∧
      S.mem = s.mem ∧
      (if MIN_SPLIT ≤ (s.heap b).size - neededFor n then
        S.allocated = s.allocated ∧
        S.heap b = { size := neededFor n, next := (s.heap b).next, free := (s.heap b).free } ∧
        ((S.heap (b + neededFor n)).free) = true
      else S = s) := by
  have hp' : b + headerSize ≠ 0 := by unfold headerSize; omega
  have hneed0 : neededFor n ≠ 0 := by
    unfold headerSize blockAlign at hneed; omega
  have hbne : b ≠ b + neededFor n := by omega
  have hsubp : b + headerSize - headerSize = b := by omega
  by_cases hms : MIN_SPLIT ≤ (s.heap b).size - neededFor n
  · have hheadL := searchChain_head_mem s fuel _ L hch
    have hhb : s.head ≠ b := fun he => hbL (he ▸ hheadL)
    have hhbn : s.head ≠ b + neededFor n := fun he => htL (he ▸ hheadL)
    have hs2heap_out : ∀ x, x ≠ b → x ≠ b + neededFor n →
        ((storeSize (setB s (b + neededFor n)
          { size := (s.heap b).size - neededFor n, next := 0, free := true })
          b (neededFor n)).heap x) = s.heap x := by
      intro x hxb hxn
      rw [heap_storeSize, if_neg hxb, heap_setB, if_neg hxn]
    have hs2b : ((storeSize (setB s (b + neededFor n)
        { size := (s.heap b).size - neededFor n, next := 0, free := true })
        b (neededFor n)).heap b) = { s.heap b with size := neededFor n } := by
      rw [heap_storeSize, if_pos rfl, heap_setB, if_neg hbne]
    have hch2 : searchChain (storeSize (setB s (b + neededFor n)
        { size := (s.heap b).size - neededFor n, next := 0, free := true })
        b (neededFor n)) fuel ((s.heap s.head).next) = some L :=
      searchChain_congr s
        (storeSize (setB s (b + neededFor n)
          { size := (s.heap b).size - neededFor n, next := 0, free := true }) b (neededFor n))
        rfl fuel _ L hch
        (fun a ha => by
          rw [hs2heap_out a (fun he => hbL (he ▸ ha)) (fun he => htL (he ▸ ha))])
    have hch2' : searchChain (storeSize (setB s (b + neededFor n)
        { size := (s.heap b).size - neededFor n, next := 0, free := true })
        b (neededFor n)) fuel
        (((storeSize (setB s (b + neededFor n)
          { size := (s.heap b).size - neededFor n, next := 0, free := true })
          b (neededFor n)).heap
          ((storeSize (setB s (b + neededFor n)
            { size := (s.heap b).size - neededFor n, next := 0, free := true })
            b (neededFor n)).head)).next) = some L := by
      have hrw : (((storeSize (setB s (b + neededFor n)
          { size := (s.heap b).size - neededFor n, next := 0, free := true })
          b (neededFor n)).heap
          ((storeSize (setB s (b + neededFor n)
            { size := (s.heap b).size - neededFor n, next := 0, free := true })
            b (neededFor n)).head)).next) = (s.heap s.head).next := by
        show (((storeSize (setB s (b + neededFor n)
          { size := (s.heap b).size - neededFor n, next := 0, free := true })
          b (neededFor n)).heap s.head)).next = _
        rw [hs2heap_out s.head hhb hhbn]
      rw [hrw]
      exact hch2
    obtain ⟨s', hfr, hm, ha, hflag, hout⟩ := free_chain_facts fuel
      (storeSize (setB s (b + neededFor n)
        { size := (s.heap b).size - neededFor n, next := 0, free := true })
        b (neededFor n))
      (b + neededFor n + headerSize) L
      (by unfold headerSize; omega)
      (by rw [Nat.add_sub_cancel]; omega)
      hh hch2' (by rw [Nat.add_sub_cancel]; exact htL)
    rw [Nat.add_sub_cancel] at ha hflag hout
    refine ⟨s', ?_, ?_, ?_⟩
    · rw [realloc, if_neg hp', if_neg hn, hsubp, readB_eq_some s b hb]
      simp only
      rw [if_pos hfit, if_pos hms, hfr]
    · rw [hm]; rfl
    · rw [if_pos hms]
      refine ⟨?_, ?_, hflag⟩
      · rw [ha]
        show s.allocated.erase (b + neededFor n) = s.allocated
        exact List.erase_of_not_mem hta
      · rw [hout b hbne hbL, hs2b]
  · refine ⟨s, ?_, rfl, ?_⟩
    · rw [realloc, if_neg hp', if_neg hn, hsubp, readB_eq_some s b hb]
      simp only
      rw [if_pos hfit, if_neg hms]
    · rw [if_neg hms]

/-- Witness for C6: on the arena after alloc(500) (block at 16 of size
544, free block at 560), realloc(48, 100) shrinks in place: needed = 144,
remainder 400 is above the minimum split size. -/
theorem realloc_shrink_in_place_w :
    ∃ S, realloc 20 16 st5 (16 + headerSize) 100 = some (some (16 + headerSize), S) ∧
      S.mem = st5.mem ∧
      (if MIN_SPLIT ≤ (st5.heap 16).size - neededFor 100 then
        S.allocated = st5.allocated ∧
        S.heap 16 =
          { size := neededFor 100, next := (st5.heap 16).next, free := (st5.heap 16).free } ∧
        ((S.heap (16 + neededFor 100)).free) = true
      else S = st5) :=
  realloc_shrink_in_place 20 16 st5 16 100 [560]
    (by decide) (by decide) (by decide) (by decide) (by decide) (by decide)
    (by decide) (by decide) (by decide)

/-- Claim C8: alloc with size 0 returns null and leaves the allocator state
completely unchanged (free list, headers, arena bytes, registry). -/
theorem alloc_zero_noop (fuel : Nat) (s : AState) : alloc fuel s 0 = some (none, s) := by
  simp [alloc]

/-- Witness for C8 at the fresh arena. -/
theorem alloc_zero_noop_w : alloc 5 initState 0 = some (none, initState) :=
  alloc_zero_noop 5 initState

/-- Claim C3: the spec invariant fails on the code.  From the fresh arena,
alloc(1048528) consumes the single free block whole; afterwards no free
block exists (the lone block covering the whole arena is allocated), yet
the free-list head is not the null sentinel: it points at the allocated
block itself, and the one-node cycle reached from the head consists of
that non-free block. -/
theorem head_not_null_after_exhaustion :
    exhaustA.map Prod.fst = some (some 48) ∧
    exhaustState.head = 16 ∧
    exhaustState.heap 16 = { size := 1048576, next := 16, free := false } ∧
    searchChain exhaustState 5 ((exhaustState.heap exhaustState.head).next) = some [16] ∧
    exhaustState.allocated = [16] := by
  decide

/-- Claim C4: the code dereferences the null free-list head.  The state
with an empty free list (head = null sentinel) is reachable: alloc(100)
then realloc(48, 1048544) absorbs the only free block in place and
remove_free_block writes null into the head.  A subsequent alloc(1)
dereferences the null head (modelled by none = undefined behaviour)
instead of failing immediately with a null return. -/
theorem alloc_empty_list_null_deref :
    growAll.map Prod.fst = some (some 48) ∧
    emptyHeadState.head = 0 ∧
    (alloc 20 emptyHeadState 1).map Prod.fst = none := by
  decide

/-- Claim C10: when alloc consumes the head block whole in the
single-free-block case, the head is retargeted to the search predecessor,
which is the just-allocated block itself; every subsequent alloc call
terminates and returns null, because the search requires the free flag in
addition to a sufficient size. -/
theorem alloc_consume_head_retarget :
    exhaustA.map Prod.fst = some (some 48) ∧
    exhaustState.head = 16 ∧
    (exhaustState.heap 16).free = false ∧
    1048576 ≤ (exhaustState.heap 16).size ∧
    ∀ n : Nat, alloc 5 exhaustState n = some (none, exhaustState) := by
  refine ⟨by decide, by decide, by decide, by decide, ?_⟩
  intro n
  have hh : exhaustState.head = 16 := by decide
  have hb : exhaustState.heap 16 = { size := 1048576, next := 16, free := false } := by decide
  by_cases hn : n = 0
  · subst hn; simp [alloc]
  · simp [alloc, hn, hh, readB, hb, allocLoop]

/-- Witness for C10: the universally quantified part instantiated at a
request of 100 bytes. -/
theorem alloc_consume_head_retarget_w :
    alloc 5 exhaustState 100 = some (none, exhaustState) :=
  alloc_consume_head_retarget.2.2.2.2 100

/-- Counterexample for claim C7: for size = 2^64 - 32 the exact value of
size + header_size exceeds the arena capacity (so the exact needed does
too), yet alloc returns a non-null pointer, because the in-code
computation of needed wraps around 2^64 to 0. -/
theorem alloc_overflow_nonnull :
    ARENA_SIZE < (U64 - 32) + headerSize ∧
    (alloc 20 initState (U64 - 32)).map Prod.fst = some (some 48) := by
  decide

/- The search loop returns null (leaving the state untouched) when no
   visited block both is free and fits. -/
theorem allocLoop_no_fit (s : AState) (needed : Nat) :
    ∀ (fuel prev current : Nat) (L : List Nat),
      searchChain s fuel current = some L →
      (∀ a ∈ L, ¬((s.heap a).free = true ∧ needed ≤ (s.heap a).size)) →
      allocLoop s needed fuel prev current = some (none, s) := by
  intro fuel
  induction fuel with
  | zero => intro prev current L h _; simp [searchChain] at h
  | succ fuel ih =>
    intro prev current L hch hno
    rw [searchChain] at hch
    by_cases h0 : current = 0
    · simp [h0] at hch
    · rw [if_neg h0] at hch
      rw [allocLoop, readB_eq_some s current h0]
      by_cases hh : current = s.head
      · rw [if_pos hh] at hch
        have hL : L = [current] := by
          cases hch; rfl
        have hnc := hno current (by rw [hL]; exact List.mem_singleton.mpr rfl)
        simp only [if_neg hnc, if_pos hh]
      · rw [if_neg hh] at hch
        cases hch' : searchChain s fuel ((s.heap current).next) with
        | none => rw [hch'] at hch; cases hch
        | some L' =>
          rw [hch'] at hch
          have hL : L = current :: L' := by cases hch; rfl
          have hnc := hno current (by rw [hL]; exact List.mem_cons_self current L')
          simp only [if_neg hnc, if_neg hh]
          exact ih current ((s.heap current).next) L' hch'
            (fun a ha => hno a (by rw [hL]; exact List.mem_cons_of_mem current ha))

/-- Claim C7 (amended): whenever the needed value actually computed by the
code, align_up((size + header_size) mod 2^64, alignment), exceeds the
arena capacity, alloc returns null and leaves the state unchanged, in any
state whose free-list walk closes and whose visited blocks all have size
at most the capacity.  (As originally stated, with needed read in exact
arithmetic, the claim fails when size + header_size overflows; see the
counterexample.)  In particular alloc(ARENA_SIZE + 1) always returns
null. -/
theorem alloc_needed_exceeds_capacity_null
    (fuel size : Nat) (s : AState) (L : List Nat)
    (hsz : size ≠ 0) (hh : s.head ≠ 0)
    (hch : searchChain s fuel ((s.heap s.head).next) = some L)
    (hbound : ∀ a ∈ L, (s.heap a).size ≤ ARENA_SIZE)
    (hneed : ARENA_SIZE < neededFor size) :
    alloc fuel s size = some (none, s) := by
  rw [alloc, if_neg hsz, readB_eq_some s s.head hh]
  exact allocLoop_no_fit s (neededFor size) fuel s.head ((s.heap s.head).next) L hch
    (fun a ha hfit => absurd hfit.2 (not_le.mpr (lt_of_le_of_lt (hbound a ha) hneed)))

/-- Witness for the amended C7, and the particular capacity bound: at the
fresh arena, alloc(ARENA_SIZE + 1) returns null. -/
theorem alloc_needed_exceeds_capacity_null_w :
    alloc 3 initState (ARENA_SIZE + 1) = some (none, initState) :=
  alloc_needed_exceeds_capacity_null 3 (ARENA_SIZE + 1) initState [16]
    (by decide) (by decide) (by decide) (by decide) (by decide)

/- A failed search mutates nothing: if allocLoop reports null, the state
   it returns is the input state. -/
theorem allocLoop_none_eq (s : AState) (needed : Nat) :
    ∀ (fuel prev current : Nat) (r : AState),
      allocLoop s needed fuel prev current = some (none, r) → r = s := by
  intro fuel
  induction fuel with
  | zero => intro prev current r h; cases h
  | succ fuel ih =>
    intro prev current r h
    rw [allocLoop] at h
    cases hrd : readB s current with
    | none => rw [hrd] at h; cases h
    | some cb =>
      rw [hrd] at h
      simp only at h
      by_cases hfit : cb.free = true ∧ needed ≤ cb.size
      · rw [if_pos hfit] at h
        by_cases hs : headerSize + blockAlign ≤ cb.size - needed
        · rw [if_pos hs] at h; cases h
        · rw [if_neg hs] at h; cases h
      · rw [if_neg hfit] at h
        by_cases hh : current = s.head
        · rw [if_pos hh] at h
          cases h; rfl
        · rw [if_neg hh] at h
          exact ih current cb.next r h

theorem alloc_none_eq (fuel size : Nat) (s r : AState)
    (h : alloc fuel s size = some (none, r)) : r = s := by
  rw [alloc] at h
  by_cases hsz : size = 0
  · rw [if_pos hsz] at h; cases h; rfl
  · rw [if_neg hsz] at h
    cases hrd : readB s s.head with
    | none => rw [hrd] at h; cases h
    | some hb =>
      rw [hrd] at h
      exact allocLoop_none_eq s (neededFor size) fuel s.head hb.next r h

/- remove_free_block rewires next pointers and the head only: it never
   changes a size, a free flag, the registry or the arena bytes. -/
theorem removeLoop_pres (s : AState) (blk : Nat) :
    ∀ (fuel cur : Nat) (s' : AState), removeLoop s blk fuel cur = some s' →
      s'.mem = s.mem ∧ s'.allocated = s.allocated ∧
      ∀ a, (s'.heap a).size = (s.heap a).size ∧ (s'.heap a).free = (s.heap a).free := by
  intro fuel
  induction fuel with
  | zero => intro cur s' h; cases h
  | succ fuel ih =>
    intro cur s' h
    rw [removeLoop] at h
    cases hrd : readB s cur with
    | none => rw [hrd] at h; cases h
    | some cb =>
      rw [hrd] at h
      simp only at h
      by_cases hn : cb.next = blk
      · rw [if_pos hn] at h
        cases h
        refine ⟨by unfold removeHeadUpd; split <;> rfl,
          by unfold removeHeadUpd; split <;> rfl, fun a => ?_⟩
        by_cases hac : a = cur
        · subst hac
          constructor <;>
            (unfold removeHeadUpd storeNext; split <;> simp [heap_setB])
        · constructor <;>
            (unfold removeHeadUpd storeNext; split <;> simp [heap_setB, hac])
      · rw [if_neg hn] at h
        by_cases hh : cb.next = s.head
        · rw [if_pos hh] at h; cases h; exact ⟨rfl, rfl, fun a => ⟨rfl, rfl⟩⟩
        · rw [if_neg hh] at h
          exact ih cb.next s' h

theorem remove_free_block_pres (fuel : Nat) (s : AState) (blk : Nat) (s' : AState)
    (h : remove_free_block fuel s blk = some s') :
    s'.mem = s.mem ∧ s'.allocated = s.allocated ∧
    ∀ a, (s'.heap a).size = (s.heap a).size ∧ (s'.heap a).free = (s.heap a).free := by
  rw [remove_free_block] at h
  by_cases h0 : s.head = 0
  · rw [if_pos h0] at h; cases h; exact ⟨rfl, rfl, fun a => ⟨rfl, rfl⟩⟩
  · rw [if_neg h0] at h
    by_cases hb : s.head = blk ∧ (s.heap s.head).next = s.head
    · rw [if_pos hb] at h; cases h; exact ⟨rfl, rfl, fun a => ⟨rfl, rfl⟩⟩
    · rw [if_neg hb] at h
      exact removeLoop_pres s blk fuel s.head s' h

/- On the failure outcome, try_in_place_extend_next_free_block has not
   touched the arena bytes, the registry, or any free flag; the block
   itself kept its size, or grew by absorbing its free physical
   neighbour. -/
theorem try_false_facts (fuel base : Nat) (s : AState) (b needed : Nat) (s' : AState)
    (h : try_in_place fuel base s b needed = some (false, s')) :
    s'.mem = s.mem ∧ s'.allocated = s.allocated ∧
    (∀ a, (s'.heap a).free = (s.heap a).free) ∧
    ((s'.heap b).size = (s.heap b).size ∨
      (s'.heap b).size = wadd ((s.heap b).size) ((s.heap (b + (s.heap b).size)).size)) := by
  rw [try_in_place] at h
  cases hrd : readB s b with
  | none => rw [hrd] at h; cases h
  | some bb =>
    have hbb : bb = s.heap b := by
      unfold readB at hrd
      split at hrd
      · cases hrd
      · cases hrd; rfl
    rw [hrd] at h
    simp only at h
    by_cases hob : b + bb.size < base ∨ base + ARENA_SIZE ≤ b + bb.size
    · rw [if_pos hob] at h; cases h; exact ⟨rfl, rfl, fun a => rfl, Or.inl rfl⟩
    · rw [if_neg hob] at h
      by_cases hself : b + bb.size = b
      · rw [if_pos hself] at h; cases h; exact ⟨rfl, rfl, fun a => rfl, Or.inl rfl⟩
      · rw [if_neg hself] at h
        cases hrn : readB s (b + bb.size) with
        | none => rw [hrn] at h; cases h
        | some nb =>
          rw [hrn] at h
          simp only at h
          by_cases hfree : nb.free = true
          · rw [if_pos hfree] at h
            cases hrm : remove_free_block fuel s (b + bb.size) with
            | none => rw [hrm] at h; cases h
            | some s1 =>
              rw [hrm] at h
              obtain ⟨hm1, ha1, hsz1⟩ := remove_free_block_pres fuel s (b + bb.size) s1 hrm
              unfold tryFinish at h
              simp only at h
              by_cases hge : needed ≤
                  ((storeSize s1 b (wadd ((s1.heap b).size) ((s1.heap (b + bb.size)).size)))
                    |>.heap b).size
              · rw [if_pos hge] at h
                by_cases hms : MIN_SPLIT ≤
                    ((storeSize s1 b (wadd ((s1.heap b).size) ((s1.heap (b + bb.size)).size)))
                      |>.heap b).size - needed
                · rw [if_pos hms] at h
                  cases hfr : free fuel
                      (storeSize
                        (setB (storeSize s1 b
                            (wadd ((s1.heap b).size) ((s1.heap (b + bb.size)).size)))
                          (b + needed)
                          { size := ((storeSize s1 b
                              (wadd ((s1.heap b).size) ((s1.heap (b + bb.size)).size))).heap
                                b).size - needed
                            next := 0
                            free := true })
                        b needed)
                      (b + needed + headerSize) with
                  | none => rw [hfr] at h; cases h
                  | some s5 => rw [hfr] at h; cases h
                · rw [if_neg hms] at h; cases h
              · rw [if_neg hge] at h
                cases h
                subst hbb
                refine ⟨hm1, ha1, fun a => ?_, Or.inr ?_⟩
                · unfold storeSize
                  rw [heap_setB]
                  split
                  · next heq =>
                    subst heq
                    exact (hsz1 a).2
                  · exact (hsz1 a).2
                · have h1 := (hsz1 b).1
                  have h2 := (hsz1 (b + (s.heap b).size)).1
                  simp [storeSize, heap_setB, h1, h2]
          · rw [if_neg hfree] at h; cases h; exact ⟨rfl, rfl, fun a => rfl, Or.inl rfl⟩

/-- Claim C1 (amended): when realloc(p, n) with non-null p and n > 0
returns null, no data is lost: the arena bytes, the allocation registry
and the free flag of the original block are exactly as before the call,
and the block keeps its size unless the in-place probe had already
absorbed the free physical neighbour into it, in which case the size has
grown by the neighbour size (the original claim of complete
non-mutation — header size and free list included — fails; see the
counterexample). -/
theorem realloc_grow_fail_preserves_block
    (fuel base : Nat) (s S : AState) (p n : Nat)
    (hp : p ≠ 0) (hn : n ≠ 0)
    (h : realloc fuel base s p n = some (none, S)) :
    S.mem = s.mem ∧ S.allocated = s.allocated ∧
    (S.heap (p - headerSize)).free = (s.heap (p - headerSize)).free ∧
    ((S.heap (p - headerSize)).size = (s.heap (p - headerSize)).size ∨
      (S.heap (p - headerSize)).size =
        wadd ((s.heap (p - headerSize)).size)
          ((s.heap ((p - headerSize) + (s.heap (p - headerSize)).size)).size)) := by
  rw [realloc, if_neg hp, if_neg hn] at h
  cases hrd : readB s (p - headerSize) with
  | none => rw [hrd] at h; cases h
  | some bb =>
    rw [hrd] at h
    simp only at h
    by_cases hsh : neededFor n ≤ bb.size
    · rw [if_pos hsh] at h
      by_cases hms : MIN_SPLIT ≤ bb.size - neededFor n
      · rw [if_pos hms] at h
        cases hfr : free fuel
            (storeSize
              (setB s (p - headerSize + neededFor n)
                { size := bb.size - neededFor n, next := 0, free := true })
              (p - headerSize) (neededFor n))
            (p - headerSize + neededFor n + headerSize) with
        | none => rw [hfr] at h; cases h
        | some s3 => rw [hfr] at h; cases h
      · rw [if_neg hms] at h; cases h
    · rw [if_neg hsh] at h
      cases htr : try_in_place fuel base s (p - headerSize) (neededFor n) with
      | none => rw [htr] at h; cases h
      | some r =>
        rw [htr] at h
        obtain ⟨flag, s1⟩ := r
        cases flag with
        | true => simp only at h; cases h
        | false =>
          simp only at h
          cases hal : alloc fuel s1 n with
          | none => rw [hal] at h; cases h
          | some q =>
            rw [hal] at h
            obtain ⟨res, s2⟩ := q
            cases res with
            | none =>
              simp only at h
              cases h
              have hs2 : S = s1 := alloc_none_eq fuel n s1 S hal
              subst hs2
              obtain ⟨a1, a2, a3, a4⟩ :=
                try_false_facts fuel base s (p - headerSize) (neededFor n) S htr
              exact ⟨a1, a2, a3 (p - headerSize), a4⟩
            | some np =>
              simp only at h
              cases hfr : free fuel
                  (delAlloc (memcpy s2 p np (min (wsub bb.size headerSize) n))
                    (p - headerSize))
                  p with
              | none => rw [hfr] at h; cases h
              | some s5 => rw [hfr] at h; cases h

/-- Witness for the amended C1: the concrete grow-failure execution.  In
gfState the block at 160 is live; realloc(192, 1048401) returns null; the
arena bytes, the registry and the allocated status of the block at 160
are unchanged (its size has absorbed the neighbour). -/
theorem realloc_grow_fail_preserves_block_w :
    gfS.mem = gfState.mem ∧ gfS.allocated = gfState.allocated ∧
    (gfS.heap (192 - headerSize)).free = (gfState.heap (192 - headerSize)).free ∧
    ((gfS.heap (192 - headerSize)).size = (gfState.heap (192 - headerSize)).size ∨
      (gfS.heap (192 - headerSize)).size =
        wadd ((gfState.heap (192 - headerSize)).size)
          ((gfState.heap ((192 - headerSize) + (gfState.heap (192 - headerSize)).size)).size)) :=
  realloc_grow_fail_preserves_block 20 16 gfState gfS 192 1048401
    (by decide) (by decide) (by rfl)

/-- Counterexample for claim C1 as stated: in gfState the block at 160 is
live and allocated with header size 144, its physical neighbour at 304 is
free, and no block can satisfy needed = 1048448.  realloc(192, 1048401)
returns null, yet the original header size has been mutated from 144 to
1048432 and the free list no longer contains the node at 304: the failure
was not mutation-free. -/
theorem realloc_grow_fail_mutates :
    gfState.allocated = [160] ∧
    (gfState.heap 160).size = 144 ∧
    (gfState.heap 304).free = true ∧
    (gfState.heap 160).size < neededFor 1048401 ∧
    growFail.map Prod.fst = some none ∧
    (gfS.heap 160).size = 1048432 ∧
    gfState.head = 304 ∧ gfS.head = 16 ∧
    searchChain gfState 5 ((gfState.heap gfState.head).next) = some [16, 304] ∧
    searchChain gfS 5 ((gfS.heap gfS.head).next) = some [16] := by
  decide

end MAC
